import Mathlib

/-!
Shallow embedding of the Vibify2 orchestration layer (the Spotify client
module, the NextAuth token-refresh callback, and the derived-metric
functions), with theorems settling the specification claims about them.

Remote HTTP interaction is modelled by explicit environment records: each
remote endpoint becomes a function from the request parameters to either a
result or a failure, and the embedded operations additionally return a
trace of the requests / attempts / waits they perform, so that claims about
"how many attempts", "which chunks", and "which waits" are statable.
JS numbers are modelled as rationals (the claims in scope only involve
exact arithmetic on them).
-/

namespace Vibify

/-! ## Derived metrics (calculateMoodScore and friends) -/

/-- Embedding of calculateMoodScore:
`Math.max(0, Math.min(100, ((valence + energy) / 2) * 100))`. -/
def calculateMoodScore (valence energy : ℚ) : ℚ :=
  max 0 (min 100 ((valence + energy) / 2 * 100))

/-- Modelled from the spec wording: `clamp(x, lo, hi)` clamps `x` into
`[lo, hi]`.  Used only to compare the source formula against the spec's
`clamp(((v + e) / 2) * 100, 0, 100)` phrasing. -/
def clamp (x lo hi : ℚ) : ℚ :=
  max lo (min hi x)

/-- Embedding of calculateObscurityScore:
`Math.max(0, Math.min(100, 100 - popularity))`. -/
def calculateObscurityScore (popularity : ℚ) : ℚ :=
  max 0 (min 100 (100 - popularity))

/-! ## Token lifecycle (refreshAccessToken in the NextAuth route) -/

/-- The JWT token record kept by the NextAuth callbacks.  The `user` field
stands for the opaque extra payload carried along by the object spread
(`...token`). -/
structure Token where
  accessToken : String
  refreshToken : String
  accessTokenExpires : Nat
  user : String
  error : Option String
deriving DecidableEq, Repr

/-- A successful JSON body from the provider's token endpoint.
`refresh_token` is optional: the provider may omit it. -/
structure RefreshResponse where
  access_token : String
  refresh_token : Option String
  expires_in : Nat
deriving DecidableEq, Repr

/-- Embedding of refreshAccessToken.  `response = none` models a failed
fetch or a non-ok response (the catch branch); `some d` models a
successful refresh.  `now` is `Date.now()` in milliseconds. -/
def refreshAccessToken (now : Nat) (token : Token)
    (response : Option RefreshResponse) : Token :=
  match response with
  | none =>
      { token with error := some "RefreshAccessTokenError" }
  | some d =>
      { token with
        accessToken := d.access_token
        refreshToken := d.refresh_token.getD token.refreshToken
        accessTokenExpires := now + d.expires_in * 1000 }

/-! ## chunkArray -/

/-- Structural worker for `chunkArray`: the source's `for (i = 0; i < n;
i += size)` loop, with an explicit fuel bounding the number of iterations
(one iteration consumes at least one element whenever `0 < size`, so fuel
`array.length` is always enough). -/
def chunkArrayGo {α : Type} (size : Nat) : Nat → List α → List (List α)
  | _, [] => []
  | 0, _ :: _ => []
  | fuel + 1, a :: as =>
      ((a :: as).take size) :: chunkArrayGo size fuel ((a :: as).drop size)

/-! ## Retryable call wrapper (retryableSpotifyCall) -/

/-- The shape of an error thrown by an operation: the optional HTTP status
code (`error?.statusCode`), the optional parsed `retry-after` header in
seconds (`error?.headers?.['retry-after']`), and the message. -/
structure SpotifyError where
  statusCode : Option Nat
  retryAfter : Option Nat
  message : String
deriving DecidableEq, Repr

/-- What `retryableSpotifyCall` ultimately does: return the operation's
value, rethrow an operation error unmodified, throw the synthetic
rate-limit-exceeded error, or throw the synthetic unknown error. -/
inductive RetryOutcome (α : Type) where
  | ok (a : α)
  | spotifyError (e : SpotifyError)
  | rateLimitExceeded
  | unknownError
deriving DecidableEq, Repr

/-- Observable events of the retry loop: invoking the operation for a given
attempt number, and waiting a number of milliseconds via `delay`. -/
inductive RetryEvent where
  | invoke (attempt : Nat)
  | wait (ms : Nat)
deriving DecidableEq, Repr

/-- The post-loop error translation: having exhausted all retries with last
error `e`, a 429 becomes the synthetic "Rate limit exceeded" error and any
other error is rethrown as-is. -/
def exhaust {α : Type} (e : SpotifyError) : RetryOutcome α :=
  if e.statusCode = some 429 then RetryOutcome.rateLimitExceeded
  else RetryOutcome.spotifyError e

/-- The body of retryableSpotifyCall's `for` loop.  `op` maps the attempt
number (starting at 1) to that invocation's outcome; `remaining` counts the
attempts still allowed after the current one (so the current attempt is the
last one exactly when `remaining = 0`, i.e. `attempt = maxRetries`).
On a 401/403 the error is rethrown at once.  Otherwise, if a retry is
allowed, the loop waits — the `retry-after` header (seconds, times 1000)
when present on a 429, else `initialDelayMs * 2 ^ (attempt - 1)` — and
retries; if not, the loop ends and the exhaustion translation applies. -/
def retryLoop {α : Type} (op : Nat → Except SpotifyError α)
    (initialDelayMs : Nat) : Nat → Nat → RetryOutcome α × List RetryEvent
  | attempt, remaining =>
    match op attempt with
    | Except.ok a => (RetryOutcome.ok a, [RetryEvent.invoke attempt])
    | Except.error e =>
      if e.statusCode = some 401 ∨ e.statusCode = some 403 then
        (RetryOutcome.spotifyError e, [RetryEvent.invoke attempt])
      else
        match remaining with
        | 0 => (exhaust e, [RetryEvent.invoke attempt])
        | r + 1 =>
          let waitMs :=
            if e.statusCode = some 429 then
              match e.retryAfter with
              | some s => s * 1000
              | none => initialDelayMs * 2 ^ (attempt - 1)
            else initialDelayMs * 2 ^ (attempt - 1)
          let next := retryLoop op initialDelayMs (attempt + 1) r
          (next.1, RetryEvent.invoke attempt :: RetryEvent.wait waitMs :: next.2)

/-- Embedding of retryableSpotifyCall: runs `op` up to `maxRetries` times
starting at attempt 1, with the wait policy of `retryLoop`.  With a retry
budget of 0 the loop body never runs and the synthetic unknown error is
thrown (`lastError` stays undefined). -/
def retryableSpotifyCall {α : Type} (op : Nat → Except SpotifyError α)
    (maxRetries : Nat) (initialDelayMs : Nat) :
    RetryOutcome α × List RetryEvent :=
  match maxRetries with
  | 0 => (RetryOutcome.unknownError, [])
  | m + 1 => retryLoop op initialDelayMs 1 m

/-- Embedding of chunkArray: slices the array into consecutive chunks of
`size` elements (the last chunk may be shorter).  The source's loop does
not terminate for `size = 0`; the repository only ever calls it with
`size = 100`, and for `0 < size` the fuel `array.length` is never
exhausted. -/
def chunkArray {α : Type} (array : List α) (size : Nat) : List (List α) :=
  chunkArrayGo size array.length array

/-! ## getTrackFeatures -/

/-- An audio-features record, as produced by the source's fallback literal
and (abstractly) by the remote endpoint. -/
structure AudioFeatures where
  danceability : ℚ
  energy : ℚ
  valence : ℚ
  tempo : ℚ
  acousticness : ℚ
  instrumentalness : ℚ
deriving DecidableEq, Repr

/-- The synthetic default audio-features record the source builds in each
of its fallback branches. -/
def fallbackAudioFeatures : AudioFeatures :=
  { danceability := 1/2
    energy := 1/2
    valence := 1/2
    tempo := 120
    acousticness := 1/2
    instrumentalness := 1/2 }

/-- Remote behaviour for one chunk of getTrackFeatures:
the probe request on the chunk's first id returns 403 (`testForbidden`),
or the batched request succeeds with a feature list (`ok`), or the batched
request fails with a 403-flavoured error (`errForbidden`), or it fails with
any other error (`errOther`, caught and skipped). -/
inductive ChunkOutcome where
  | testForbidden
  | ok (features : List AudioFeatures)
  | errForbidden
  | errOther
deriving DecidableEq, Repr

/-- Environment for getTrackFeatures: the
`NEXT_PUBLIC_USE_FALLBACK_FEATURES` flag and the remote behaviour on each
chunk of ids. -/
structure FeatureEnv where
  useFallbackFeatures : Bool
  outcome : List String → ChunkOutcome

/-- The chunk loop of getTrackFeatures.  Besides the feature list it
returns the trace of id lists sent to the audio-features endpoint: for each
chunk, first the single-id probe request (`chunk.take 1`, the source's
`chunk[0]`), then the batched request with the whole chunk.  A 403 on
either request aborts the loop and yields one default record per input id;
any other per-chunk error is swallowed; if the loop finishes with no
features at all, the default records are returned as well. -/
def getTrackFeaturesGo (env : FeatureEnv) (trackIds : List String) :
    List (List String) → List AudioFeatures →
    List AudioFeatures × List (List String)
  | [], allFeatures =>
      (if allFeatures.isEmpty then
          trackIds.map fun _ => fallbackAudioFeatures
        else allFeatures, [])
  | chunk :: rest, allFeatures =>
      match env.outcome chunk with
      | ChunkOutcome.testForbidden =>
          (trackIds.map fun _ => fallbackAudioFeatures, [chunk.take 1])
      | ChunkOutcome.errForbidden =>
          (trackIds.map fun _ => fallbackAudioFeatures, [chunk.take 1, chunk])
      | ChunkOutcome.ok fs =>
          let r := getTrackFeaturesGo env trackIds rest (allFeatures ++ fs)
          (r.1, chunk.take 1 :: chunk :: r.2)
      | ChunkOutcome.errOther =>
          let r := getTrackFeaturesGo env trackIds rest allFeatures
          (r.1, chunk.take 1 :: chunk :: r.2)

/-- Embedding of getTrackFeatures, returning the feature list together with
the trace of id lists requested from the audio-features endpoint.  An empty
input short-circuits to `[]`; the environment flag short-circuits to one
default record per id; otherwise the input is chunked into batches of 100
and processed by `getTrackFeaturesGo`. -/
def getTrackFeatures (env : FeatureEnv) (trackIds : List String) :
    List AudioFeatures × List (List String) :=
  if trackIds.isEmpty then ([], [])
  else if env.useFallbackFeatures then
    (trackIds.map fun _ => fallbackAudioFeatures, [])
  else
    getTrackFeaturesGo env trackIds (chunkArray trackIds 100) []

/-! ## getRecommendations and createFallbackRecommendations -/

/-- A recommendation track record, with the fields the source's fallback
literal populates. -/
structure RecTrack where
  id : String
  name : String
  artistNames : List String
  albumImageUrl : String
  externalUrl : String
deriving DecidableEq, Repr

/-- Embedding of createFallbackRecommendations: `limit` synthetic records
whose ids are `fallback-0`, `fallback-1`, … -/
def createFallbackRecommendations (limit : Nat) : List RecTrack :=
  (List.range limit).map fun index =>
    { id := "fallback-" ++ toString index
      name := "Fallback Track " ++ toString (index + 1)
      artistNames := ["Various Artists"]
      albumImageUrl := "/placeholder.svg"
      externalUrl := "https://open.spotify.com" }

/-- One remote attempt recorded by the embedded cascade: a request to the
recommendations endpoint with the given genre seeds or track seeds. -/
inductive RecAttempt where
  | genre (seeds : List String)
  | track (seeds : List String)
deriving DecidableEq, Repr

/-- Remote behaviour for getRecommendations: each attempt (genre seeds or
track seeds, plus target popularity and limit) either throws (`none`,
covering non-ok responses and fetch failures) or succeeds with the
response's track list (`some`, possibly empty).  `availableGenres` is the
value returned by getAvailableGenres, which never throws in the source
(its internal catch returns default genres). -/
structure RecEnv where
  genreAttempt : List String → Nat → Nat → Option (List RecTrack)
  trackAttempt : List String → Nat → Nat → Option (List RecTrack)
  availableGenres : List String

/-- The source's validity test for a seed track id: the regex
`/^[0-9A-Za-z]{22}$/`. -/
def isValidTrackId (id : String) : Bool :=
  id.length == 22 && id.toList.all fun c => c.isAlphanum

/-- The `for (let i = min(valid.length, 5); i > 0; i--)` loop of
getRecommendations: try the first `i` valid seed tracks, return on the
first attempt that does not throw (whatever its track list), otherwise
shrink.  Returns the winning list (if any) and the trace of attempts. -/
def tryTrackSeeds (env : RecEnv) (validSeedTracks : List String)
    (targetPopularity limit : Nat) :
    Nat → Option (List RecTrack) × List RecAttempt
  | 0 => (none, [])
  | i + 1 =>
      let seeds := validSeedTracks.take (i + 1)
      match env.trackAttempt seeds targetPopularity limit with
      | some tracks => (some tracks, [RecAttempt.track seeds])
      | none =>
          let rest := tryTrackSeeds env validSeedTracks targetPopularity limit i
          (rest.1, RecAttempt.track seeds :: rest.2)

/-- The genre-seed branch of getRecommendations: when genre seeds are
present, one request with the first 5 of them; the winning list (if the
request did not throw) and the trace. -/
def tryGenreSeeds (env : RecEnv) (seedGenres : List String)
    (targetPopularity limit : Nat) :
    Option (List RecTrack) × List RecAttempt :=
  if seedGenres.isEmpty then (none, [])
  else
    match env.genreAttempt (seedGenres.take 5) targetPopularity limit with
    | some tracks =>
        (some tracks, [RecAttempt.genre (seedGenres.take 5)])
    | none => (none, [RecAttempt.genre (seedGenres.take 5)])

/-- getRecommendations specialized to empty seed tracks.  The source calls
itself exactly once, with `seedTracks = []` and default genres; at that
call the track-seed branch is skipped, so the whole behaviour is: throw on
an empty access token, fall straight back when there are no genre seeds
either, otherwise one genre attempt whose success is returned and whose
failure falls back.  This definition embeds that single recursive call. -/
def getRecommendationsBase (env : RecEnv) (accessToken : String)
    (targetPopularity limit : Nat) (seedGenres : List String) :
    Except String (List RecTrack × List RecAttempt) :=
  if accessToken = "" then Except.error "No access token provided"
  else if seedGenres.isEmpty then
    Except.ok (createFallbackRecommendations limit, [])
  else
    match tryGenreSeeds env seedGenres targetPopularity limit with
    | (some tracks, attempts) => Except.ok (tracks, attempts)
    | (none, attempts) =>
        Except.ok (createFallbackRecommendations limit, attempts)

/-- Embedding of getRecommendations.  Throws on an empty access token;
falls straight back when both seed lists are empty; tries the genre seeds
(first 5) and returns any non-throwing result; otherwise, with seed tracks
present, filters them through `isValidTrackId` — when none are valid it
fetches available genres and, if any, re-enters itself with empty seed
tracks and the first 3 of them (embedded as `getRecommendationsBase`),
else falls back; when some are valid it tries shrinking seed prefixes and
falls back if all of them throw. -/
def getRecommendations (env : RecEnv) (accessToken : String)
    (seedTracks : List String) (targetPopularity limit : Nat)
    (seedGenres : List String) :
    Except String (List RecTrack × List RecAttempt) :=
  if accessToken = "" then Except.error "No access token provided"
  else if seedTracks.isEmpty && seedGenres.isEmpty then
    Except.ok (createFallbackRecommendations limit, [])
  else
    match tryGenreSeeds env seedGenres targetPopularity limit with
    | (some tracks, attempts) => Except.ok (tracks, attempts)
    | (none, attempts) =>
      match seedTracks with
      | [] => Except.ok (createFallbackRecommendations limit, attempts)
      | t :: ts =>
        let validSeedTracks := (t :: ts).filter isValidTrackId
        if validSeedTracks.isEmpty then
          if env.availableGenres.isEmpty then
            Except.ok (createFallbackRecommendations limit, attempts)
          else
            match getRecommendationsBase env accessToken targetPopularity
                limit (env.availableGenres.take 3) with
            | Except.ok (tracks, attempts2) =>
                Except.ok (tracks, attempts ++ attempts2)
            | Except.error e => Except.error e
        else
          match tryTrackSeeds env validSeedTracks targetPopularity limit
              (min validSeedTracks.length 5) with
          | (some tracks, attempts2) =>
              Except.ok (tracks, attempts ++ attempts2)
          | (none, attempts2) =>
              Except.ok (createFallbackRecommendations limit,
                attempts ++ attempts2)

/-! ## RequestQueue -/

/-- State of the bounded-concurrency request queue.  `queue` holds waiting
items front-first (the source's array, pushed at the back, shifted at the
front), `running` the items currently running, `started` the items in the
order they began running, `finished` the items in the order they
completed. -/
structure QueueState where
  queue : List Nat
  running : List Nat
  started : List Nat
  finished : List Nat
deriving DecidableEq, Repr

/-- The empty initial queue state. -/
def initState : QueueState :=
  { queue := [], running := [], started := [], finished := [] }

/-- Embedding of RequestQueue.processNext: when an item is waiting and a
slot is free, shift the front of the queue and start it (the started item
synchronously increments `running`). -/
def processNext (maxConcurrent : Nat) (s : QueueState) : QueueState :=
  match s.queue with
  | [] => s
  | t :: rest =>
      if s.running.length < maxConcurrent then
        { s with
          queue := rest
          running := s.running ++ [t]
          started := s.started ++ [t] }
      else s

/-- External events driving the queue: RequestQueue.add pushing a new item,
and a running item settling (`success` records whether its promise resolved
or rejected; the queue's bookkeeping is the same either way — the finally
block decrements `running` and calls processNext). -/
inductive QueueEvent where
  | add (t : Nat)
  | complete (t : Nat) (success : Bool)
deriving DecidableEq, Repr

/-- One transition of the embedded RequestQueue.  `add` pushes the item at
the back and, if a slot is free, lets processNext start the front item;
`complete` for a running item removes it from `running`, records it
finished, and lets processNext start the next waiting item.  A `complete`
for an item that is not running is a no-op (no such event can occur in the
source). -/
def queueStep (maxConcurrent : Nat) (s : QueueState) :
    QueueEvent → QueueState
  | QueueEvent.add t =>
      let s1 := { s with queue := s.queue ++ [t] }
      if s1.running.length < maxConcurrent then processNext maxConcurrent s1
      else s1
  | QueueEvent.complete t _success =>
      if t ∈ s.running then
        processNext maxConcurrent
          { s with
            running := s.running.erase t
            finished := s.finished ++ [t] }
      else s

/-- Run the embedded queue from the empty state over a list of events. -/
def runQueue (maxConcurrent : Nat) (events : List QueueEvent) : QueueState :=
  events.foldl (queueStep maxConcurrent) initState

/-- The items submitted by a trace of events, in submission order. -/
def addedOrder (events : List QueueEvent) : List Nat :=
  events.filterMap fun e =>
    match e with
    | QueueEvent.add t => some t
    | QueueEvent.complete _ _ => none

/-! ## Concrete witnesses and counterexample inputs -/

/-- A constantly rate-limited operation carrying `retry-after: 2`. -/
def alwaysRate : Nat → Except SpotifyError Nat :=
  fun _ => Except.error ⟨some 429, some 2, "rate limited"⟩

/-- The attempt trace of the shrinking track-seed loop run to exhaustion
from `n` seeds down to 1: the traces the loop actually produces are the
initial segments of this list (it stops early at the first success). -/
def shrinkAttempts (v : List String) : Nat → List RecAttempt
  | 0 => []
  | k + 1 => RecAttempt.track (v.take (k + 1)) :: shrinkAttempts v k

/-- A concrete remote track used in counterexample environments. -/
def cexTrack : RecTrack :=
  { id := "trk1", name := "Song", artistNames := ["Artist"],
    albumImageUrl := "/img.png", externalUrl := "https://x" }

/-- Counterexample environment for the cascade ordering claim: the genre
attempt succeeds with an empty track list, while the track attempt would
succeed with a non-empty one. -/
def cexEnvGenreEmpty : RecEnv :=
  { genreAttempt := fun _ _ _ => some []
    trackAttempt := fun _ _ _ => some [cexTrack]
    availableGenres := [] }

/-- Counterexample environment for the track-seed shrinking claim: the
two-seed attempt succeeds with an empty track list, any other attempt
succeeds with a non-empty one. -/
def cexEnvTwoSeedsEmpty : RecEnv :=
  { genreAttempt := fun _ _ _ => none
    trackAttempt := fun seeds _ _ =>
      if seeds.length == 2 then some [] else some [cexTrack]
    availableGenres := [] }

/-- Witness environment for the shrinking track-seed strategy: only the
single-seed attempt succeeds (with a non-empty list), larger attempts
throw. -/
def cexEnvShrink : RecEnv :=
  { genreAttempt := fun _ _ _ => none
    trackAttempt := fun seeds _ _ =>
      if seeds.length == 1 then some [cexTrack] else none
    availableGenres := [] }

/-- A syntactically valid 22-character track id. -/
def cexIdA : String := "ABCDEFGHIJKLMNOPQRSTUV"

/-- A second syntactically valid 22-character track id. -/
def cexIdB : String := "abcdefghijklmnopqrstuv"

/-! ## Theorems -/

/-- C8: for valence and energy in [0,1], calculateMoodScore equals
`clamp(((v + e) / 2) * 100, 0, 100)`, lies in [0,100], and is monotone
non-decreasing in each argument separately. -/
theorem calculateMoodScore_clamped_monotone (v e v' e' : ℚ)
    (hv0 : 0 ≤ v) (hv1 : v ≤ 1) (he0 : 0 ≤ e) (he1 : e ≤ 1) :
    calculateMoodScore v e = clamp ((v + e) / 2 * 100) 0 100 ∧
    0 ≤ calculateMoodScore v e ∧ calculateMoodScore v e ≤ 100 ∧
    (v ≤ v' → calculateMoodScore v e ≤ calculateMoodScore v' e) ∧
    (e ≤ e' → calculateMoodScore v e ≤ calculateMoodScore v e') := by
  refine ⟨rfl, le_max_left _ _, max_le (by norm_num) (min_le_left _ _), ?_, ?_⟩
  · intro h
    exact max_le_max le_rfl (min_le_min le_rfl (by linarith))
  · intro h
    exact max_le_max le_rfl (min_le_min le_rfl (by linarith))

/-- Witness for C8 at valence 1/2, energy 1/4 (with v' = e' = 1). -/
theorem calculateMoodScore_clamped_monotone_witness :
    calculateMoodScore (1/2) (1/4) = clamp ((1/2 + 1/4) / 2 * 100) 0 100 ∧
    0 ≤ calculateMoodScore (1/2) (1/4) ∧
    calculateMoodScore (1/2) (1/4) ≤ 100 ∧
    ((1:ℚ)/2 ≤ 1 → calculateMoodScore (1/2) (1/4) ≤ calculateMoodScore 1 (1/4)) ∧
    ((1:ℚ)/4 ≤ 1 → calculateMoodScore (1/2) (1/4) ≤ calculateMoodScore (1/2) 1) :=
  calculateMoodScore_clamped_monotone (1/2) (1/4) 1 1
    (by norm_num) (by norm_num) (by norm_num) (by norm_num)

/-- C6: when a refresh succeeds and the response omits a new refresh token,
the stored refresh token is unchanged, the access token becomes the
response's access_token, the expiry becomes now plus expires_in in
milliseconds, and the remaining token fields (here: the carried user
payload and the error tag) are unchanged. -/
theorem refreshAccessToken_keeps_refresh_token (now : Nat) (token : Token)
    (d : RefreshResponse) (h : d.refresh_token = none) :
    (refreshAccessToken now token (some d)).refreshToken = token.refreshToken ∧
    (refreshAccessToken now token (some d)).accessToken = d.access_token ∧
    (refreshAccessToken now token (some d)).accessTokenExpires
      = now + d.expires_in * 1000 ∧
    (refreshAccessToken now token (some d)).user = token.user ∧
    (refreshAccessToken now token (some d)).error = token.error := by
  simp [refreshAccessToken, h]

/-- Witness for C6 on a concrete token and refresh response. -/
theorem refreshAccessToken_keeps_refresh_token_witness :
    (refreshAccessToken 5000 ⟨"oldAcc", "oldRef", 17, "alice", none⟩
        (some ⟨"newAcc", none, 3600⟩)).refreshToken = "oldRef" ∧
    (refreshAccessToken 5000 ⟨"oldAcc", "oldRef", 17, "alice", none⟩
        (some ⟨"newAcc", none, 3600⟩)).accessToken = "newAcc" ∧
    (refreshAccessToken 5000 ⟨"oldAcc", "oldRef", 17, "alice", none⟩
        (some ⟨"newAcc", none, 3600⟩)).accessTokenExpires = 5000 + 3600 * 1000 ∧
    (refreshAccessToken 5000 ⟨"oldAcc", "oldRef", 17, "alice", none⟩
        (some ⟨"newAcc", none, 3600⟩)).user = "alice" ∧
    (refreshAccessToken 5000 ⟨"oldAcc", "oldRef", 17, "alice", none⟩
        (some ⟨"newAcc", none, 3600⟩)).error = none :=
  refreshAccessToken_keeps_refresh_token 5000
    ⟨"oldAcc", "oldRef", 17, "alice", none⟩ ⟨"newAcc", none, 3600⟩ rfl

/-- C3: an operation whose first invocation fails with status 401 or 403 is
invoked exactly once (the event trace is a single invocation, no waits),
and retryableSpotifyCall propagates that very error unmodified. -/
theorem retryableSpotifyCall_auth_fails_fast {α : Type}
    (op : Nat → Except SpotifyError α) (maxRetries initialDelayMs : Nat)
    (e : SpotifyError) (hmax : 1 ≤ maxRetries)
    (hop : op 1 = Except.error e)
    (hauth : e.statusCode = some 401 ∨ e.statusCode = some 403) :
    retryableSpotifyCall op maxRetries initialDelayMs
      = (RetryOutcome.spotifyError e, [RetryEvent.invoke 1]) := by
  match maxRetries, hmax with
  | m + 1, _ =>
    rw [retryableSpotifyCall, retryLoop, hop]
    simp [hauth]

/-- Witness for C3: a constantly-401 operation with budget 3 is invoked
once and its error surfaces unchanged. -/
theorem retryableSpotifyCall_auth_fails_fast_witness :
    retryableSpotifyCall
        (fun _ => (Except.error ⟨some 401, none, "Unauthorized"⟩ :
          Except SpotifyError Nat)) 3 1000
      = (RetryOutcome.spotifyError ⟨some 401, none, "Unauthorized"⟩,
          [RetryEvent.invoke 1]) :=
  retryableSpotifyCall_auth_fails_fast _ 3 1000 _
    (by norm_num) rfl (Or.inl rfl)

/-- Every run of the retry loop begins by invoking the operation at its
current attempt number. -/
theorem retryLoop_starts_with_invoke {α : Type}
    (op : Nat → Except SpotifyError α) (d a r : Nat) :
    (retryLoop op d a r).2.head? = some (RetryEvent.invoke a) := by
  cases hop : op a with
  | ok x => simp [retryLoop, hop]
  | error e =>
    rw [retryLoop, hop]
    by_cases hauth : e.statusCode = some 401 ∨ e.statusCode = some 403
    · simp [hauth]
    · cases r with
      | zero => simp [hauth]
      | succ k => simp [hauth]

/-- C4: when an attempt (with retries remaining) fails with status 429, the
loop waits exactly `w` milliseconds before the next invocation, where `w`
is the `retry-after` header times 1000 when that header is present and
`initialDelay * 2 ^ (attempt - 1)` otherwise; the next invocation follows
the wait; and a retry budget of `r + 2` enters the loop at attempt 1 with
`r + 1` retries remaining.  In particular `retry-after: 2` forces
`w = 2000` ms, i.e. at least 2 seconds before the second invocation. -/
theorem retryableSpotifyCall_429_waits {α : Type}
    (op : Nat → Except SpotifyError α) (d a r : Nat) (e : SpotifyError)
    (w : Nat) (hop : op a = Except.error e)
    (h429 : e.statusCode = some 429)
    (hw : w = (match e.retryAfter with
               | some s => s * 1000
               | none => d * 2 ^ (a - 1))) :
    retryLoop op d a (r + 1)
      = ((retryLoop op d (a + 1) r).1,
         RetryEvent.invoke a :: RetryEvent.wait w ::
           (retryLoop op d (a + 1) r).2) ∧
    (retryLoop op d (a + 1) r).2.head? = some (RetryEvent.invoke (a + 1)) ∧
    (∀ s, e.retryAfter = some s → w = s * 1000) ∧
    (e.retryAfter = none → w = d * 2 ^ (a - 1)) ∧
    retryableSpotifyCall op (r + 2) d = retryLoop op d 1 (r + 1) := by
  have hauth : ¬ (e.statusCode = some 401 ∨ e.statusCode = some 403) := by
    simp [h429]
  subst hw
  refine ⟨?_, retryLoop_starts_with_invoke op d (a + 1) r, ?_, ?_, rfl⟩
  · rw [retryLoop, hop]
    simp [hauth, h429]
  · intro s hs
    rw [hs]
  · intro hn
    rw [hn]

/-- Witness for C4: a constantly-429 operation with `retry-after: 2`,
budget 4, at its first attempt waits 2000 ms before attempt 2. -/
theorem retryableSpotifyCall_429_waits_witness :
    retryLoop alwaysRate 1000 1 3
      = ((retryLoop alwaysRate 1000 2 2).1,
         RetryEvent.invoke 1 :: RetryEvent.wait 2000 ::
           (retryLoop alwaysRate 1000 2 2).2) ∧
    (retryLoop alwaysRate 1000 2 2).2.head? = some (RetryEvent.invoke 2) ∧
    (∀ s, (⟨some 429, some 2, "rate limited"⟩ : SpotifyError).retryAfter
        = some s → 2000 = s * 1000) ∧
    ((⟨some 429, some 2, "rate limited"⟩ : SpotifyError).retryAfter = none →
      2000 = 1000 * 2 ^ (1 - 1)) ∧
    retryableSpotifyCall alwaysRate (2 + 2) 1000
      = retryLoop alwaysRate 1000 1 (2 + 1) :=
  retryableSpotifyCall_429_waits alwaysRate 1000 1 2
    ⟨some 429, some 2, "rate limited"⟩ 2000 rfl rfl rfl

/-- With positive chunk size and enough fuel, concatenating the chunks
gives back the original list. -/
theorem chunkArrayGo_join {α : Type} (size : Nat) (hs : 0 < size) :
    ∀ (fuel : Nat) (l : List α), l.length ≤ fuel →
      (chunkArrayGo size fuel l).join = l := by
  intro fuel
  induction fuel with
  | zero =>
    intro l hl
    cases l with
    | nil => simp [chunkArrayGo]
    | cons a as => simp at hl
  | succ f ih =>
    intro l hl
    cases l with
    | nil => simp [chunkArrayGo]
    | cons a as =>
      rw [chunkArrayGo]
      have hdrop : ((a :: as).drop size).length ≤ f := by
        simp only [List.length_drop, List.length_cons]
        simp only [List.length_cons] at hl
        omega
      simp only [List.join_cons, ih _ hdrop, List.take_append_drop]

/-- Every chunk produced by the worker has at most `size` elements. -/
theorem chunkArrayGo_length_le {α : Type} (size : Nat) :
    ∀ (fuel : Nat) (l : List α) (c : List α),
      c ∈ chunkArrayGo size fuel l → c.length ≤ size := by
  intro fuel
  induction fuel with
  | zero =>
    intro l c hc
    cases l with
    | nil => simp [chunkArrayGo] at hc
    | cons a as => simp [chunkArrayGo] at hc
  | succ f ih =>
    intro l c hc
    cases l with
    | nil => simp [chunkArrayGo] at hc
    | cons a as =>
      rw [chunkArrayGo] at hc
      rcases List.mem_cons.mp hc with h | h
      · subst h
        simpa using List.length_take_le size (a :: as)
      · exact ih _ _ h

/-- The chunks of `chunkArray l size` concatenate back to `l` when
`0 < size`. -/
theorem chunkArray_join {α : Type} (l : List α) (size : Nat)
    (hs : 0 < size) : (chunkArray l size).join = l :=
  chunkArrayGo_join size hs l.length l le_rfl

/-- Each chunk of `chunkArray l size` has at most `size` elements. -/
theorem chunkArray_length_le {α : Type} (l : List α) (size : Nat)
    (c : List α) (hc : c ∈ chunkArray l size) : c.length ≤ size :=
  chunkArrayGo_length_le size l.length l c hc

/-- Every id list requested by the chunk loop is either the single-id probe
of some chunk or a whole chunk. -/
theorem getTrackFeaturesGo_requests (env : FeatureEnv)
    (tids : List String) :
    ∀ (chunks : List (List String)) (acc : List AudioFeatures)
      (req : List String),
      req ∈ (getTrackFeaturesGo env tids chunks acc).2 →
      (∃ c ∈ chunks, req = c.take 1) ∨ req ∈ chunks := by
  intro chunks
  induction chunks with
  | nil =>
    intro acc req h
    simp [getTrackFeaturesGo] at h
  | cons c rest ih =>
    intro acc req h
    rw [getTrackFeaturesGo] at h
    have hprobe : req = c.take 1 →
        (∃ c' ∈ c :: rest, req = c'.take 1) ∨ req ∈ c :: rest :=
      fun h1 => Or.inl ⟨c, List.mem_cons_self c rest, h1⟩
    have hwhole : req = c →
        (∃ c' ∈ c :: rest, req = c'.take 1) ∨ req ∈ c :: rest :=
      fun h1 => Or.inr (by rw [h1]; exact List.mem_cons_self c rest)
    have hrec : ∀ acc', req ∈ (getTrackFeaturesGo env tids rest acc').2 →
        (∃ c' ∈ c :: rest, req = c'.take 1) ∨ req ∈ c :: rest := by
      intro acc' h2
      rcases ih acc' req h2 with ⟨c', hc', hr⟩ | hr
      · exact Or.inl ⟨c', List.mem_cons_of_mem c hc', hr⟩
      · exact Or.inr (List.mem_cons_of_mem c hr)
    cases ho : env.outcome c <;> rw [ho] at h <;>
      simp only [List.mem_cons, List.not_mem_nil, or_false] at h
    · exact hprobe h
    · rcases h with h1 | h1 | h1
      · exact hprobe h1
      · exact hwhole h1
      · exact hrec _ h1
    · rcases h with h1 | h1
      · exact hprobe h1
      · exact hwhole h1
    · rcases h with h1 | h1 | h1
      · exact hprobe h1
      · exact hwhole h1
      · exact hrec _ h1

/-- C7: the input of getTrackFeatures is partitioned by chunkArray into
consecutive chunks of at most 100 ids whose concatenation is the original
list, and every request issued to the audio-features endpoint (probe or
batch) carries at most 100 ids and uses (a probe of) one such chunk. -/
theorem getTrackFeatures_batches_bounded (env : FeatureEnv)
    (ids : List String) :
    (chunkArray ids 100).join = ids ∧
    (∀ c, c ∈ chunkArray ids 100 → c.length ≤ 100) ∧
    (∀ req, req ∈ (getTrackFeatures env ids).2 →
      req.length ≤ 100 ∧
      ((∃ c ∈ chunkArray ids 100, req = c.take 1) ∨
        req ∈ chunkArray ids 100)) := by
  refine ⟨chunkArray_join ids 100 (by norm_num),
    fun c hc => chunkArray_length_le ids 100 c hc, fun req hreq => ?_⟩
  have hsrc : (∃ c ∈ chunkArray ids 100, req = c.take 1) ∨
      req ∈ chunkArray ids 100 := by
    unfold getTrackFeatures at hreq
    by_cases h0 : ids.isEmpty
    · simp [h0] at hreq
    · by_cases h1 : env.useFallbackFeatures
      · simp [h0, h1] at hreq
      · simp only [h0, h1, Bool.false_eq_true, if_false] at hreq
        exact getTrackFeaturesGo_requests env ids _ _ req hreq
  refine ⟨?_, hsrc⟩
  rcases hsrc with ⟨c, hc, hr⟩ | hr
  · subst hr
    calc (c.take 1).length ≤ 1 := by simpa using List.length_take_le 1 c
    _ ≤ 100 := by norm_num
  · exact chunkArray_length_le ids 100 req hr

/-- The chunk loop never produces an empty feature list when the input ids
are non-empty: every exit path returns either a non-empty accumulation or
one default record per input id. -/
theorem getTrackFeaturesGo_ne_nil (env : FeatureEnv) (tids : List String)
    (htids : tids ≠ []) :
    ∀ (chunks : List (List String)) (acc : List AudioFeatures),
      (getTrackFeaturesGo env tids chunks acc).1 ≠ [] := by
  have hmap : tids.map (fun _ => fallbackAudioFeatures) ≠ [] := by
    simpa using htids
  intro chunks
  induction chunks with
  | nil =>
    intro acc
    rw [getTrackFeaturesGo]
    by_cases hacc : acc.isEmpty
    · simpa [hacc] using hmap
    · simp only [hacc, Bool.false_eq_true, if_false]
      intro hnil
      rw [hnil] at hacc
      simp at hacc
  | cons c rest ih =>
    intro acc
    rw [getTrackFeaturesGo]
    cases ho : env.outcome c <;> simp only
    · exact hmap
    · exact ih _
    · exact hmap
    · exact ih _

/-- If every chunk fails with a non-403 error, the loop accumulates nothing
and falls back to one default record per input id. -/
theorem getTrackFeaturesGo_all_errors (env : FeatureEnv)
    (tids : List String) :
    ∀ (chunks : List (List String)),
      (∀ c ∈ chunks, env.outcome c = ChunkOutcome.errOther) →
      (getTrackFeaturesGo env tids chunks []).1
        = tids.map fun _ => fallbackAudioFeatures := by
  intro chunks
  induction chunks with
  | nil =>
    intro _
    simp [getTrackFeaturesGo]
  | cons c rest ih =>
    intro hall
    rw [getTrackFeaturesGo, hall c (List.mem_cons_self c rest)]
    exact ih fun c' hc' => hall c' (List.mem_cons_of_mem c hc')

/-- C10: getTrackFeatures is total and never degrades to an empty answer:
an empty input yields the empty list; a non-empty input always yields a
non-empty list; the environment fallback flag, a 403 on the first chunk's
probe or batch request, and full per-chunk failure each yield exactly one
synthetic default record (danceability 1/2, energy 1/2, valence 1/2, tempo
120, acousticness 1/2, instrumentalness 1/2) per input id. -/
theorem getTrackFeatures_never_empty (env : FeatureEnv)
    (ids : List String) :
    (getTrackFeatures env []).1 = ([] : List AudioFeatures) ∧
    (ids ≠ [] → (getTrackFeatures env ids).1 ≠ []) ∧
    (ids ≠ [] → env.useFallbackFeatures = true →
      (getTrackFeatures env ids).1 = ids.map fun _ => fallbackAudioFeatures) ∧
    (ids ≠ [] → env.useFallbackFeatures = false →
      (∀ c ∈ chunkArray ids 100, env.outcome c = ChunkOutcome.errOther) →
      (getTrackFeatures env ids).1 = ids.map fun _ => fallbackAudioFeatures) ∧
    (∀ c rest, ids ≠ [] → env.useFallbackFeatures = false →
      chunkArray ids 100 = c :: rest →
      (env.outcome c = ChunkOutcome.testForbidden ∨
        env.outcome c = ChunkOutcome.errForbidden) →
      (getTrackFeatures env ids).1 = ids.map fun _ => fallbackAudioFeatures) ∧
    (ids.map fun _ => fallbackAudioFeatures).length = ids.length ∧
    fallbackAudioFeatures =
      { danceability := 1/2, energy := 1/2, valence := 1/2, tempo := 120,
        acousticness := 1/2, instrumentalness := 1/2 } := by
  refine ⟨rfl, ?_, ?_, ?_, ?_, by simp, rfl⟩
  · intro hne
    have h0 : ids.isEmpty = false := by simpa using hne
    rw [getTrackFeatures]
    by_cases h1 : env.useFallbackFeatures
    · simpa [h0, h1] using hne
    · simp only [h0, h1, Bool.false_eq_true, if_false]
      exact getTrackFeaturesGo_ne_nil env ids hne _ _
  · intro hne h1
    have h0 : ids.isEmpty = false := by simpa using hne
    simp [getTrackFeatures, h0, h1]
  · intro hne h1 hall
    have h0 : ids.isEmpty = false := by simpa using hne
    rw [getTrackFeatures]
    simp only [h0, h1, Bool.false_eq_true, if_false]
    exact getTrackFeaturesGo_all_errors env ids _ hall
  · intro c rest hne h1 hchunks hforb
    have h0 : ids.isEmpty = false := by simpa using hne
    rw [getTrackFeatures]
    simp only [h0, h1, Bool.false_eq_true, if_false]
    rw [hchunks, getTrackFeaturesGo]
    rcases hforb with hf | hf <;> rw [hf]

/-- When every track attempt throws, the shrinking loop yields nothing. -/
theorem tryTrackSeeds_all_none (env : RecEnv) (v : List String)
    (tp lim : Nat) (ht : ∀ s, env.trackAttempt s tp lim = none) :
    ∀ n, (tryTrackSeeds env v tp lim n).1 = none := by
  intro n
  induction n with
  | zero => rfl
  | succ k ih =>
    rw [tryTrackSeeds, ht]
    simpa using ih

/-- When the genre attempt throws (or there are no genre seeds), the genre
branch yields nothing and records the attempt it made. -/
theorem tryGenreSeeds_none (env : RecEnv) (sg : List String)
    (tp lim : Nat) (hg : ∀ s, env.genreAttempt s tp lim = none) :
    tryGenreSeeds env sg tp lim
      = (none, if sg.isEmpty then []
               else [RecAttempt.genre (sg.take 5)]) := by
  rw [tryGenreSeeds]
  by_cases hsg : sg.isEmpty <;> simp [hsg, hg]

/-- With every genre attempt throwing, the empty-seed-tracks body of
getRecommendations returns the fallback list. -/
theorem getRecommendationsBase_all_fail (env : RecEnv) (tok : String)
    (tp lim : Nat) (sg : List String) (htok : tok ≠ "")
    (hg : ∀ s, env.genreAttempt s tp lim = none) :
    getRecommendationsBase env tok tp lim sg
      = Except.ok (createFallbackRecommendations lim,
          if sg.isEmpty then [] else [RecAttempt.genre (sg.take 5)]) := by
  rw [getRecommendationsBase, if_neg htok]
  by_cases hsg : sg.isEmpty
  · simp [hsg]
  · rw [if_neg (by simp [hsg])]
    rw [tryGenreSeeds_none env sg tp lim hg, if_neg (by simp [hsg])]

/-- C2: when every remote attempt fails, getRecommendations returns the
synthetic fallback list, which has exactly `limit` entries and whose
entries' identifiers all start with "fallback-". -/
theorem getRecommendations_all_fail_fallback (env : RecEnv) (tok : String)
    (st : List String) (tp lim : Nat) (sg : List String)
    (htok : tok ≠ "") (hlim : 0 < lim)
    (hg : ∀ s, env.genreAttempt s tp lim = none)
    (ht : ∀ s, env.trackAttempt s tp lim = none) :
    (∃ attempts, getRecommendations env tok st tp lim sg
        = Except.ok (createFallbackRecommendations lim, attempts)) ∧
    (createFallbackRecommendations lim).length = lim ∧
    (∀ tr ∈ createFallbackRecommendations lim,
      ∃ tl, tr.id = "fallback-" ++ tl) := by
  refine ⟨?_, by simp [createFallbackRecommendations], ?_⟩
  · rw [getRecommendations, if_neg htok]
    cases st with
    | nil =>
      by_cases hsg : sg.isEmpty
      · exact ⟨[], by simp [hsg]⟩
      · exact ⟨[RecAttempt.genre (sg.take 5)],
          by simp [hsg, tryGenreSeeds_none env sg tp lim hg]⟩
    | cons t ts =>
      rw [if_neg (by simp)]
      rw [tryGenreSeeds_none env sg tp lim hg]
      by_cases hv : ((t :: ts).filter isValidTrackId).isEmpty
      · by_cases ha : env.availableGenres.isEmpty
        · exact ⟨(if sg.isEmpty then []
              else [RecAttempt.genre (sg.take 5)]), by simp [hv, ha]⟩
        · have htake : (env.availableGenres.take 3).isEmpty = false := by
            rcases List.exists_cons_of_ne_nil
              (by simpa using ha : env.availableGenres ≠ []) with ⟨g, gs, hgs⟩
            simp [hgs]
          exact ⟨(if sg.isEmpty then []
              else [RecAttempt.genre (sg.take 5)])
                ++ [RecAttempt.genre ((env.availableGenres.take 3).take 5)],
            by simp [hv, ha, htake,
              getRecommendationsBase_all_fail env tok tp lim _ htok hg]⟩
      · rcases htr : tryTrackSeeds env (List.filter isValidTrackId
            (t :: ts)) tp lim
            (min (List.filter isValidTrackId (t :: ts)).length 5)
          with ⟨r1, r2⟩
        have hr1 : r1 = none := by
          have := tryTrackSeeds_all_none env
            (List.filter isValidTrackId (t :: ts)) tp lim ht
            (min (List.filter isValidTrackId (t :: ts)).length 5)
          rw [htr] at this
          exact this
        subst hr1
        exact ⟨(if sg.isEmpty then []
            else [RecAttempt.genre (sg.take 5)]) ++ r2,
          by simp [hv, htr]⟩
  · intro tr htr
    simp only [createFallbackRecommendations, List.mem_map,
      List.mem_range] at htr
    rcases htr with ⟨i, _, hi⟩
    exact ⟨toString i, by rw [← hi]⟩

/-- Witness for C2: with a constantly-failing remote and limit 2, the
result is the two-element fallback list. -/
theorem getRecommendations_all_fail_fallback_witness :
    (∃ attempts,
      getRecommendations
          ⟨fun _ _ _ => none, fun _ _ _ => none, ["pop", "rock", "indie"]⟩
          "tok" [cexIdA] 50 2 ["rock"]
        = Except.ok (createFallbackRecommendations 2, attempts)) ∧
    (createFallbackRecommendations 2).length = 2 ∧
    (∀ tr ∈ createFallbackRecommendations 2,
      ∃ tl, tr.id = "fallback-" ++ tl) :=
  getRecommendations_all_fail_fallback
    ⟨fun _ _ _ => none, fun _ _ _ => none, ["pop", "rock", "indie"]⟩
    "tok" [cexIdA] 50 2 ["rock"] (by simp) (by norm_num)
    (fun _ => rfl) (fun _ => rfl)

/-- Generic reduction of the cons-seed-tracks path of getRecommendations:
with the genre branch yielding nothing with trace `A`, valid seed tracks
present, and the shrinking loop yielding `ts2` with trace `r`, the result
is `ts2` with trace `A ++ r`. -/
theorem getRecommendations_track_branch (env : RecEnv) (tok t : String)
    (ts : List String) (tp lim : Nat) (sg : List String)
    (A r : List RecAttempt) (ts2 : List RecTrack) (htok : tok ≠ "")
    (htg : tryGenreSeeds env sg tp lim = (none, A))
    (hvne : (t :: ts).filter isValidTrackId ≠ [])
    (htt : tryTrackSeeds env ((t :: ts).filter isValidTrackId) tp lim
        (min ((t :: ts).filter isValidTrackId).length 5) = (some ts2, r)) :
    getRecommendations env tok (t :: ts) tp lim sg
      = Except.ok (ts2, A ++ r) := by
  rw [getRecommendations, if_neg htok, if_neg (by simp)]
  rw [htg]
  have hfil : ¬ (((t :: ts).filter isValidTrackId).isEmpty = true) := by
    simpa using hvne
  simp only [hfil, Bool.false_eq_true, if_false, htt]

/-- The shrinking loop, run from `n` seeds, stops at the first size whose
attempt does not throw and returns that attempt's list with the trace of
the sizes tried so far (an initial segment of `shrinkAttempts`). -/
theorem tryTrackSeeds_first_success (env : RecEnv) (v : List String)
    (tp lim : Nat) :
    ∀ (n i : Nat) (ts : List RecTrack), 1 ≤ i → i ≤ n →
      (∀ j, i < j → j ≤ n → env.trackAttempt (v.take j) tp lim = none) →
      env.trackAttempt (v.take i) tp lim = some ts →
      tryTrackSeeds env v tp lim n
        = (some ts, (shrinkAttempts v n).take (n - i + 1)) := by
  intro n
  induction n with
  | zero =>
    intro i ts h1 h2 hnone hsucc
    omega
  | succ k ih =>
    intro i ts h1 h2 hnone hsucc
    by_cases hik : i = k + 1
    · subst hik
      rw [tryTrackSeeds, hsucc]
      simp [shrinkAttempts]
    · have hle : i ≤ k := by omega
      have hk1 : env.trackAttempt (v.take (k + 1)) tp lim = none :=
        hnone (k + 1) (by omega) le_rfl
      rw [tryTrackSeeds, hk1,
        ih i ts h1 hle (fun j hj1 hj2 => hnone j hj1 (by omega)) hsucc]
      have harith : k + 1 - i + 1 = (k - i + 1) + 1 := by omega
      simp [shrinkAttempts, harith]

/-- C1 (amended): the cascade tries the genre strategy first and the track
strategy second, advancing only when an attempt throws: a genre attempt
that succeeds — with any list, empty included — is returned as-is with no
further attempts; when the genre attempt throws and the largest track-seed
attempt succeeds, its list is returned after exactly those two attempts. -/
theorem getRecommendations_strict_order (env : RecEnv) (tok : String)
    (st : List String) (tp lim : Nat) (sg : List String)
    (ts1 ts2 : List RecTrack) (htok : tok ≠ "") (hsg : sg ≠ []) :
    (env.genreAttempt (sg.take 5) tp lim = some ts1 →
      getRecommendations env tok st tp lim sg
        = Except.ok (ts1, [RecAttempt.genre (sg.take 5)])) ∧
    (env.genreAttempt (sg.take 5) tp lim = none →
      st.filter isValidTrackId ≠ [] →
      env.trackAttempt ((st.filter isValidTrackId).take
          (min (st.filter isValidTrackId).length 5)) tp lim = some ts2 →
      getRecommendations env tok st tp lim sg
        = Except.ok (ts2, [RecAttempt.genre (sg.take 5),
            RecAttempt.track ((st.filter isValidTrackId).take
              (min (st.filter isValidTrackId).length 5))])) := by
  have hsgE : ¬ (sg.isEmpty = true) := by simpa using hsg
  constructor
  · intro hgen
    rw [getRecommendations, if_neg htok, if_neg (by simp [hsg])]
    rw [tryGenreSeeds, if_neg hsgE, hgen]
  · intro hgen hvne htrack
    have hst : st ≠ [] := by
      intro h
      rw [h] at hvne
      exact hvne rfl
    obtain ⟨t, ts, hcons⟩ := List.exists_cons_of_ne_nil hst
    subst hcons
    have htg : tryGenreSeeds env sg tp lim
        = (none, [RecAttempt.genre (sg.take 5)]) := by
      rw [tryGenreSeeds, if_neg hsgE, hgen]
    have hpos : 0 < ((t :: ts).filter isValidTrackId).length :=
      List.length_pos.mpr hvne
    obtain ⟨k, hk⟩ : ∃ k,
        min ((t :: ts).filter isValidTrackId).length 5 = k + 1 :=
      ⟨min ((t :: ts).filter isValidTrackId).length 5 - 1, by omega⟩
    have htt : tryTrackSeeds env ((t :: ts).filter isValidTrackId) tp lim
        (min ((t :: ts).filter isValidTrackId).length 5)
        = (some ts2, [RecAttempt.track
            (((t :: ts).filter isValidTrackId).take
              (min ((t :: ts).filter isValidTrackId).length 5))]) := by
      rw [hk] at htrack ⊢
      rw [tryTrackSeeds, htrack]
    rw [getRecommendations_track_branch env tok t ts tp lim sg _ _ ts2
      htok htg hvne htt]
    rfl

/-- Witness for the amended C1: a genre attempt succeeding with a
non-empty list is returned at once, and after a thrown genre attempt the
first track attempt's list is returned after exactly two attempts. -/
theorem getRecommendations_strict_order_witness :
    ((⟨fun _ _ _ => some [cexTrack], fun _ _ _ => some [cexTrack],
        []⟩ : RecEnv).genreAttempt (["rock"].take 5) 50 20
        = some [cexTrack] →
      getRecommendations
          ⟨fun _ _ _ => some [cexTrack], fun _ _ _ => some [cexTrack], []⟩
          "tok" [cexIdA] 50 20 ["rock"]
        = Except.ok ([cexTrack], [RecAttempt.genre (["rock"].take 5)])) ∧
    ((⟨fun _ _ _ => some [cexTrack], fun _ _ _ => some [cexTrack],
        []⟩ : RecEnv).genreAttempt (["rock"].take 5) 50 20 = none →
      [cexIdA].filter isValidTrackId ≠ [] →
      (⟨fun _ _ _ => some [cexTrack], fun _ _ _ => some [cexTrack],
        []⟩ : RecEnv).trackAttempt (([cexIdA].filter isValidTrackId).take
          (min ([cexIdA].filter isValidTrackId).length 5)) 50 20
        = some [cexTrack] →
      getRecommendations
          ⟨fun _ _ _ => some [cexTrack], fun _ _ _ => some [cexTrack], []⟩
          "tok" [cexIdA] 50 20 ["rock"]
        = Except.ok ([cexTrack], [RecAttempt.genre (["rock"].take 5),
            RecAttempt.track (([cexIdA].filter isValidTrackId).take
              (min ([cexIdA].filter isValidTrackId).length 5))])) :=
  getRecommendations_strict_order
    ⟨fun _ _ _ => some [cexTrack], fun _ _ _ => some [cexTrack], []⟩
    "tok" [cexIdA] 50 20 ["rock"] [cexTrack] [cexTrack]
    (by simp) (by simp)

/-- Counterexample to C1 as stated: in `cexEnvGenreEmpty` the genre
attempt succeeds with zero results while a track attempt would have
returned a non-empty list, yet getRecommendations returns the empty genre
result after that single attempt — the zero-result strategy wins. -/
theorem getRecommendations_empty_genre_wins :
    getRecommendations cexEnvGenreEmpty "tok" [cexIdA] 50 20 ["rock"]
      = Except.ok ([], [RecAttempt.genre ["rock"]]) ∧
    cexEnvGenreEmpty.trackAttempt [cexIdA] 50 20 = some [cexTrack] ∧
    ([] : List RecTrack) ≠ [cexTrack] := by
  refine ⟨rfl, rfl, by simp⟩

/-- C5 (amended): with no genre seeds, getRecommendations filters the seed
tracks through the 22-alphanumeric-character check, tries shrinking
prefixes of the valid seeds from size `min(count, 5)` down, and the first
attempt that does not throw — at size `i` here, all larger sizes having
thrown — has its track list returned unmodified (even when that list is
empty), with the attempt trace being exactly the sizes from `min(count,5)`
down to `i`. -/
theorem getRecommendations_shrinking_seeds (env : RecEnv) (tok : String)
    (st : List String) (tp lim n i : Nat) (ts : List RecTrack)
    (htok : tok ≠ "") (hvne : st.filter isValidTrackId ≠ [])
    (hn : n = min (st.filter isValidTrackId).length 5)
    (h1 : 1 ≤ i) (h2 : i ≤ n)
    (hnone : ∀ j, i < j → j ≤ n →
      env.trackAttempt ((st.filter isValidTrackId).take j) tp lim = none)
    (hsucc : env.trackAttempt ((st.filter isValidTrackId).take i) tp lim
      = some ts) :
    getRecommendations env tok st tp lim []
      = Except.ok (ts,
          (shrinkAttempts (st.filter isValidTrackId) n).take (n - i + 1)) ∧
    (∀ x ∈ st.filter isValidTrackId, isValidTrackId x = true) := by
  refine ⟨?_, fun x hx => (List.mem_filter.mp hx).2⟩
  have hst : st ≠ [] := by
    intro h
    rw [h] at hvne
    exact hvne rfl
  obtain ⟨t, ts', hcons⟩ := List.exists_cons_of_ne_nil hst
  subst hcons
  have htt := tryTrackSeeds_first_success env
    ((t :: ts').filter isValidTrackId) tp lim n i ts h1 h2 hnone hsucc
  rw [getRecommendations_track_branch env tok t ts' tp lim [] [] _ ts
    htok rfl hvne (by rw [← hn]; exact htt)]
  rfl

/-- Witness for the amended C5: two valid seed ids, the two-seed attempt
throws, the one-seed attempt returns a non-empty list which is returned
after the trace [size 2, size 1]. -/
theorem getRecommendations_shrinking_seeds_witness :
    getRecommendations cexEnvShrink "tok" [cexIdA, cexIdB] 50 20 []
      = Except.ok ([cexTrack],
          (shrinkAttempts ([cexIdA, cexIdB].filter isValidTrackId) 2).take
            (2 - 1 + 1)) ∧
    (∀ x ∈ [cexIdA, cexIdB].filter isValidTrackId,
      isValidTrackId x = true) :=
  getRecommendations_shrinking_seeds cexEnvShrink "tok" [cexIdA, cexIdB]
    50 20 2 1 [cexTrack] (by simp) (by decide) (by decide)
    (by norm_num) (by norm_num)
    (by
      intro j hj1 hj2
      have hj : j = 2 := by omega
      subst hj
      rfl)
    rfl

/-- Counterexample to C5 as stated: in `cexEnvTwoSeedsEmpty` the two-seed
attempt succeeds with zero results and the one-seed attempt would have
returned a non-empty list, yet getRecommendations returns the empty
two-seed result and never issues the one-seed attempt — the first
non-empty-yielding attempt does not win. -/
theorem getRecommendations_empty_two_seeds_wins :
    getRecommendations cexEnvTwoSeedsEmpty "tok" [cexIdA, cexIdB] 50 20 []
      = Except.ok ([], [RecAttempt.track [cexIdA, cexIdB]]) ∧
    cexEnvTwoSeedsEmpty.trackAttempt [cexIdA] 50 20 = some [cexTrack] ∧
    ([] : List RecTrack) ≠ [cexTrack] := by
  refine ⟨rfl, rfl, by simp⟩

/-- One queue transition preserves the queue invariants: the number of
running items stays within the concurrency limit, no item waits while a
slot is free, bookkeeping counts balance (each started item is either
running or finished), and the started-then-waiting order is extended only
at the back by a newly added item (FIFO). -/
theorem queueStep_preserves (max : Nat) (s : QueueState) (e : QueueEvent)
    (h1 : s.running.length ≤ max)
    (h2 : s.running.length < max → s.queue = [])
    (h3 : ∀ u, s.started.count u
      = s.running.count u + s.finished.count u) :
    ((queueStep max s e).running.length ≤ max ∧
      ((queueStep max s e).running.length < max →
        (queueStep max s e).queue = []) ∧
      (∀ u, (queueStep max s e).started.count u
        = (queueStep max s e).running.count u
          + (queueStep max s e).finished.count u)) ∧
    (queueStep max s e).started ++ (queueStep max s e).queue
      = (s.started ++ s.queue) ++ addedOrder [e] := by
  cases e with
  | add t =>
    by_cases hr : s.running.length < max
    · have hq := h2 hr
      have hred : queueStep max s (QueueEvent.add t)
          = { s with
              queue := []
              running := s.running ++ [t]
              started := s.started ++ [t] } := by
        simp [queueStep, hr, processNext, hq]
      rw [hred]
      refine ⟨⟨?_, fun _ => rfl, ?_⟩, ?_⟩
      · simp only [List.length_append, List.length_singleton]
        omega
      · intro u
        have h3u := h3 u
        simp only [List.count_append]
        omega
      · simp [hq, addedOrder]
    · have hred : queueStep max s (QueueEvent.add t)
          = { s with queue := s.queue ++ [t] } := by
        simp [queueStep, hr]
      rw [hred]
      exact ⟨⟨h1, fun h => absurd h hr, h3⟩, by simp [addedOrder]⟩
  | complete t b =>
    by_cases hmem : t ∈ s.running
    · have hlen : (s.running.erase t).length = s.running.length - 1 :=
        List.length_erase_of_mem hmem
      have hpos : 0 < s.running.length :=
        List.length_pos.mpr (List.ne_nil_of_mem hmem)
      have hcnt : 0 < s.running.count t := List.count_pos_iff.mpr hmem
      have het : ∀ u, (s.running.erase t).count u
          = s.running.count u - if u = t then 1 else 0 := by
        intro u
        by_cases hu : u = t
        · subst hu; simp
        · simp [List.count_erase_of_ne hu, hu]
      cases hq : s.queue with
      | nil =>
        have hred : queueStep max s (QueueEvent.complete t b)
            = { s with
                running := s.running.erase t
                finished := s.finished ++ [t] } := by
          simp [queueStep, hmem, processNext, hq]
        rw [hred]
        refine ⟨⟨?_, fun _ => hq, ?_⟩, ?_⟩
        · simp only [hlen]
          omega
        · intro u
          have h3u := h3 u
          have hetu := het u
          simp only [List.count_append, hetu]
          by_cases hu : u = t
          · have ha : (if u = t then 1 else 0) = 1 := if_pos hu
            have hb : List.count u [t] = 1 := by rw [hu]; simp
            have hc : List.count u s.running = List.count t s.running := by
              rw [hu]
            omega
          · have ha : (if u = t then 1 else 0) = 0 := if_neg hu
            have hb : List.count u [t] = 0 := by
              simp [List.count_singleton', Ne.symm hu]
            omega
        · simp [hq, addedOrder]
      | cons q rest =>
        have hfull : ¬ s.running.length < max := by
          intro hlt
          simp [h2 hlt] at hq
        have hcond : (s.running.erase t).length < max := by
          rw [hlen]
          omega
        have hcond2 : s.running.length - 1 < max := by omega
        have hred : queueStep max s (QueueEvent.complete t b)
            = { s with
                queue := rest
                running := s.running.erase t ++ [q]
                started := s.started ++ [q]
                finished := s.finished ++ [t] } := by
          simp [queueStep, hmem, processNext, hq, hcond, hcond2]
        rw [hred]
        refine ⟨⟨?_, ?_, ?_⟩, ?_⟩
        · simp only [List.length_append, List.length_singleton, hlen]
          omega
        · intro hcontra
          exfalso
          simp only [List.length_append, List.length_singleton, hlen]
            at hcontra
          omega
        · intro u
          have h3u := h3 u
          have hetu := het u
          simp only [List.count_append, hetu]
          by_cases hu : u = t
          · have ha : (if u = t then 1 else 0) = 1 := if_pos hu
            have hb : List.count u [t] = 1 := by rw [hu]; simp
            have hc : List.count u s.running = List.count t s.running := by
              rw [hu]
            omega
          · have ha : (if u = t then 1 else 0) = 0 := if_neg hu
            have hb : List.count u [t] = 0 := by
              simp [List.count_singleton', Ne.symm hu]
            omega
        · simp [hq, addedOrder]
    · have hred : queueStep max s (QueueEvent.complete t b) = s := by
        simp [queueStep, hmem]
      rw [hred]
      exact ⟨⟨h1, h2, h3⟩, by simp [addedOrder]⟩

/-- The queue invariants hold after any event trace from the empty state:
bounded concurrency, no waiting while a slot is free, balanced counts, and
the started-then-waiting order equals the submission order. -/
theorem runQueue_invariants (max : Nat) (events : List QueueEvent) :
    (runQueue max events).running.length ≤ max ∧
    ((runQueue max events).running.length < max →
      (runQueue max events).queue = []) ∧
    (∀ u, (runQueue max events).started.count u
      = (runQueue max events).running.count u
        + (runQueue max events).finished.count u) ∧
    (runQueue max events).started ++ (runQueue max events).queue
      = addedOrder events := by
  induction events using List.reverseRecOn with
  | nil => exact ⟨by simp [runQueue, initState], by simp [runQueue, initState],
      by simp [runQueue, initState], by simp [runQueue, initState, addedOrder]⟩
  | append_singleton evs e ih =>
    have hrun : runQueue max (evs ++ [e])
        = queueStep max (runQueue max evs) e := by
      simp [runQueue, List.foldl_append]
    have hadd : addedOrder (evs ++ [e])
        = addedOrder evs ++ addedOrder [e] := by
      simp [addedOrder]
    have hstep := queueStep_preserves max (runQueue max evs) e
      ih.1 ih.2.1 ih.2.2.1
    refine ⟨hrun ▸ hstep.1.1, hrun ▸ hstep.1.2.1, hrun ▸ hstep.1.2.2, ?_⟩
    rw [hrun, hadd, ← ih.2.2.2]
    exact hstep.2

/-- C9: the embedded RequestQueue with limit `max` never exceeds `max`
concurrently running items; items start in FIFO submission order (the
started-then-waiting sequence always equals the submission sequence, and no
item waits while a slot is free); bookkeeping balances so an item runs at
most once (started count = running count + finished count); a completing
item's success or failure drives the same transition; and the concrete
10-task, limit-3 schedule finishes all ten tasks exactly once. -/
theorem requestQueue_bounded_fifo_complete (max : Nat)
    (events : List QueueEvent) :
    (runQueue max events).running.length ≤ max ∧
    ((runQueue max events).running.length < max →
      (runQueue max events).queue = []) ∧
    (∀ u, (runQueue max events).started.count u
      = (runQueue max events).running.count u
        + (runQueue max events).finished.count u) ∧
    (runQueue max events).started ++ (runQueue max events).queue
      = addedOrder events ∧
    (∀ s t b, queueStep max s (QueueEvent.complete t b)
      = queueStep max s (QueueEvent.complete t true)) ∧
    (runQueue 3 ((List.range 10).map QueueEvent.add
        ++ (List.range 10).map fun u => QueueEvent.complete u true)).finished
      = List.range 10 ∧
    (runQueue 3 ((List.range 10).map QueueEvent.add
        ++ (List.range 10).map fun u => QueueEvent.complete u true)).finished.Nodup := by
  have hinv := runQueue_invariants max events
  refine ⟨hinv.1, hinv.2.1, hinv.2.2.1, hinv.2.2.2,
    fun s t b => rfl, by decide, by decide⟩

end Vibify
